import Mathlib

/-!
# k-d tree cell index versus exhaustive scan

A shallow embedding of `include/point.h`, `include/grid.h`, `include/kdtree.h`
and of `RegularSearch` from `include/benchmark_runner.h`.

Modelling conventions.

* `double` coordinates and half-sizes are exact rationals (`ℚ`): the properties
  below only use comparison, subtraction and absolute value.
* `int` grid addresses are `Int`; the `int` indices `depth`, `start`, `end`, `mid`
  of `buildTree` are `Nat` (they are never negative, and the vector length is
  taken to fit in an `int`).
* `std::unique_ptr<KDNode>` is the inductive type `KDNode` whose constructor
  `null` is the empty pointer.
* `std::vector` is `List`; the in-place mutation of the working vector by
  `buildTree` is explicit state passing: `buildTree` returns the subtree together
  with the vector as it is left after the call.
* `std::nth_element` belongs to the C++ standard library.  It is a parameter of
  `buildTree`; `NthElementOk` states the part of its postcondition that the
  build relies on, and `sortSelect` is one executable instance.
-/

namespace KDBench

/-! ## point.h -/

/-- The struct `Point`: two coordinates. -/
structure Point where
  x : ℚ
  y : ℚ
deriving DecidableEq

/-- The tolerance `eps = 1e-9` of `Point::operator==` and `Cell::operator==`. -/
def eps : ℚ := 1 / 1000000000

/-- The member `Point::operator==`: coordinatewise equality up to `eps`. -/
def Point.eq (p other : Point) : Bool :=
  decide (|p.x - other.x| < eps) && decide (|p.y - other.y| < eps)

/-! ## grid.h -/

/-- The struct `Cell`: grid address, center and half of the side length. -/
structure Cell where
  grid_x : Int
  grid_y : Int
  center : Point
  half_size : ℚ
deriving DecidableEq

/-- The member `Cell::contains`: both coordinates of `p` are within `half_size`
of the center (closed square). -/
def Cell.contains (c : Cell) (p : Point) : Bool :=
  decide (|p.x - c.center.x| ≤ c.half_size) &&
  decide (|p.y - c.center.y| ≤ c.half_size)

/-- The member `Cell::operator==`. -/
def Cell.eq (c other : Cell) : Bool :=
  decide (c.grid_x = other.grid_x) &&
  decide (c.grid_y = other.grid_y) &&
  c.center.eq other.center &&
  decide (|c.half_size - other.half_size| < eps)

/-! ## benchmark_runner.h : RegularSearch -/

/-- The class `RegularSearch`: it owns a copy of the cells. -/
structure RegularSearch where
  cells : List Cell

/-- The range-for loop of `RegularSearch::search`: return the first cell that
contains `target`, or `result` once the cells are exhausted. -/
def RegularSearch.searchLoop (result : Cell) (target : Point) : List Cell → Cell
  | [] => result
  | cell :: rest =>
    if cell.contains target then cell
    else RegularSearch.searchLoop result target rest

/-- The member `RegularSearch::search`. -/
def RegularSearch.search (self : RegularSearch) (target : Point) : Cell :=
  let result : Cell := ⟨-1, -1, ⟨0, 0⟩, 0⟩
  RegularSearch.searchLoop result target self.cells

/-! ## kdtree.h -/

/-- A `std::unique_ptr<KDNode>`: either the empty pointer or a node with its
point, its cell and its two owned children. -/
inductive KDNode where
  | null : KDNode
  | node (point : Point) (cell : Cell) (left right : KDNode) : KDNode
deriving DecidableEq

/-- The test `if (ptr)` negated: the pointer is empty. -/
def KDNode.isNull : KDNode → Bool
  | .null => true
  | .node _ _ _ _ => false

/-- An element of the vector given to `build`. -/
abbrev Entry := Point × Cell

instance : Inhabited Entry := ⟨(⟨0, 0⟩, ⟨0, 0, ⟨0, 0⟩, 0⟩)⟩

/-- The comparator lambda of `buildTree`: compare the points on `axis`
(`0` is x, anything else is y). -/
def lessAxis (axis : Nat) (a b : Entry) : Bool :=
  if axis = 0 then decide (a.1.x < b.1.x) else decide (a.1.y < b.1.y)

/-- The type of `std::nth_element` on a vector of entries: comparator, vector,
and the three positions `first`, `nth`, `last`; the result is the vector after
the call. -/
abbrev NthElement := (Entry → Entry → Bool) → List Entry → Nat → Nat → Nat → List Entry

/-- The elements of `v` at the positions `first`, ..., `last - 1`. -/
def slice (v : List Entry) (first last : Nat) : List Entry :=
  (v.drop first).take (last - first)

/-- The member `KDTree::buildTree`.  The result is the subtree for the range
`[start, end_)` and the working vector after the call.  `points[mid]` is read
with a default outside the vector, which does not happen when `end_` is at most
the length and `nth_element` keeps the length. -/
def buildTree (nth_element : NthElement) (points : List Entry)
    (depth start end_ : Nat) : KDNode × List Entry :=
  if start ≥ end_ then (KDNode.null, points)
  else
    let axis := depth % 2
    let mid := start + (end_ - start) / 2
    let points1 := nth_element (lessAxis axis) points start mid end_
    let e := points1.getD mid default
    let l := buildTree nth_element points1 (depth + 1) start mid
    let r := buildTree nth_element l.2 (depth + 1) (mid + 1) end_
    (KDNode.node e.1 e.2 l.1 r.1, r.2)
termination_by end_ - start
decreasing_by
  all_goals simp_wf
  all_goals omega

/-- The member `KDTree::searchHelper`.  The two recursive calls of the source
(`next_branch`, then `opposite_branch`) are on `left` or `right` according to
`goLeft`, the outcome of the comparison of `target` with the node's point. -/
def searchHelper : KDNode → Point → Nat → Cell
  | .null, _, _ => ⟨0, 0, ⟨0, 0⟩, 0⟩
  | .node point cell left right, target, depth =>
    let axis := depth % 2
    let best := cell
    let goLeft : Bool :=
      if axis = 0 then decide (target.x < point.x) else decide (target.y < point.y)
    let next_branch := if goLeft then left else right
    let opposite_branch := if goLeft then right else left
    let best :=
      if next_branch.isNull then best
      else
        let candidate :=
          if goLeft then searchHelper left target (depth + 1)
          else searchHelper right target (depth + 1)
        if candidate.contains target then candidate else best
    let axis_dist := if axis = 0 then |target.x - point.x| else |target.y - point.y|
    if !opposite_branch.isNull && decide (axis_dist ≤ best.half_size) then
      let candidate :=
        if goLeft then searchHelper right target (depth + 1)
        else searchHelper left target (depth + 1)
      if candidate.contains target then candidate else best
    else best

/-- The class `KDTree`: the root pointer and the recorded node count. -/
structure KDTree where
  root : KDNode
  node_count : Nat

/-- The constructor `KDTree::KDTree()`: empty root, count zero. -/
def KDTree.new : KDTree := ⟨KDNode.null, 0⟩

/-- The member `KDTree::build`: the tree is built on the copy `temp`; the
result is the index after the call and the caller's vector after the call. -/
def KDTree.build (nth_element : NthElement) (_self : KDTree) (points : List Entry) :
    KDTree × List Entry :=
  let temp := points
  let r := buildTree nth_element temp 0 0 temp.length
  ({ root := r.1, node_count := points.length }, points)

/-- The member `KDTree::search`. -/
def KDTree.search (self : KDTree) (target : Point) : Cell :=
  if self.root.isNull then ⟨0, 0, ⟨0, 0⟩, 0⟩
  else searchHelper self.root target 0

/-- The member `KDTree::getNodeCount`. -/
def KDTree.getNodeCount (self : KDTree) : Nat := self.node_count

/-- The loop of `BenchmarkRunner::benchmarkKDTree` that pairs every cell with
its center. -/
def allCells (lookup_cells : List Cell) : List Entry :=
  lookup_cells.map (fun cell => (cell.center, cell))

/-! ## Specification vocabulary -/

/-- The postcondition of `std::nth_element(first, nth, last, comp)` as far as the
build relies on it: outside `[first, last)` the vector `w` after the call is the
vector `v` before it; inside, `w` holds a rearrangement `a ++ pv :: b` of the
old elements in which the pivot `pv` stands at position `nth`, no element of `a`
(before it) is greater than the pivot and no element of `b` (after it) is less. -/
def NthElementPost (comp : Entry → Entry → Bool) (v : List Entry)
    (first nth last : Nat) (w : List Entry) : Prop :=
  ∃ a pv b, w = v.take first ++ (a ++ pv :: b) ++ v.drop last ∧
    a.length = nth - first ∧
    (a ++ pv :: b).Perm (slice v first last) ∧
    (∀ x ∈ a, comp pv x = false) ∧
    (∀ y ∈ b, comp y pv = false)

/-- A selection routine honours the postcondition of `std::nth_element` on every
call that `buildTree` can make: comparator `lessAxis axis`, and positions
`first ≤ nth < last ≤ size`. -/
def NthElementOk (sel : NthElement) : Prop :=
  ∀ (axis : Nat) (v : List Entry) (first nth last : Nat),
    first ≤ nth → nth < last → last ≤ v.length →
    NthElementPost (lessAxis axis) v first nth last (sel (lessAxis axis) v first nth last)

/-- One executable selection routine: sort the range `[first, last)` with
respect to `comp` (stable insertion sort) and leave the rest of the vector
alone.  A sorted range satisfies the postcondition of `std::nth_element` for
every `nth`. -/
def sortSelect : NthElement := fun comp v first _nth last =>
  v.take first ++ (slice v first last).insertionSort (fun a b => comp b a = false) ++
    v.drop last

/-- The entries stored in the tree, in in-order (left subtree, node, right
subtree). -/
def KDNode.entries : KDNode → List Entry
  | .null => []
  | .node point cell left right => left.entries ++ (point, cell) :: right.entries

/-- The cells stored in the tree, in in-order. -/
def KDNode.cells (t : KDNode) : List Cell := t.entries.map Prod.snd

/-- The number of nodes reachable from the pointer. -/
def KDNode.size : KDNode → Nat
  | .null => 0
  | .node _ _ left right => left.size + 1 + right.size

/-- The number of nodes on the longest path from the pointer down to a leaf. -/
def KDNode.height : KDNode → Nat
  | .null => 0
  | .node _ _ left right => 1 + max left.height right.height

/-- The coordinate of `p` on `axis` (`0` is x, anything else is y). -/
def coord (axis : Nat) (p : Point) : ℚ := if axis = 0 then p.x else p.y

/-- The k-d ordering invariant for a subtree whose root is at depth `depth`:
on the axis `depth % 2`, every entry of the left subtree is at most the node's
point and every entry of the right subtree is at least the node's point, and
the same holds in both subtrees one level deeper. -/
def KDInv : KDNode → Nat → Prop
  | .null, _ => True
  | .node point _ left right, depth =>
    (∀ e ∈ left.entries, coord (depth % 2) e.1 ≤ coord (depth % 2) point) ∧
    (∀ e ∈ right.entries, coord (depth % 2) point ≤ coord (depth % 2) e.1) ∧
    KDInv left (depth + 1) ∧ KDInv right (depth + 1)

/-- The shape that median splitting produces: at every node whose subtree has
`n` nodes the left subtree has `n / 2` nodes and the right one `n - 1 - n / 2`. -/
def MedianSplit : KDNode → Prop
  | .null => True
  | .node point cell left right =>
    left.size = (KDNode.node point cell left right).size / 2 ∧
    right.size = (KDNode.node point cell left right).size - 1
      - (KDNode.node point cell left right).size / 2 ∧
    MedianSplit left ∧ MedianSplit right

/-- At every node the two subtrees differ in size by at most one and the left
one is never the smaller. -/
def LeftHeavy : KDNode → Prop
  | .null => True
  | .node _ _ left right =>
    right.size ≤ left.size ∧ left.size ≤ right.size + 1 ∧ LeftHeavy left ∧ LeftHeavy right

/-- The invariant can be checked by evaluation. -/
instance KDInv.instDecidable : (t : KDNode) → (depth : Nat) → Decidable (KDInv t depth)
  | .null, _ => isTrue trivial
  | .node point _ left right, depth =>
    have := KDInv.instDecidable left (depth + 1)
    have := KDInv.instDecidable right (depth + 1)
    inferInstanceAs (Decidable
      ((∀ e ∈ left.entries, coord (depth % 2) e.1 ≤ coord (depth % 2) point) ∧
       (∀ e ∈ right.entries, coord (depth % 2) point ≤ coord (depth % 2) e.1) ∧
       KDInv left (depth + 1) ∧ KDInv right (depth + 1)))

/-- The median-split shape can be checked by evaluation. -/
instance MedianSplit.instDecidable : (t : KDNode) → Decidable (MedianSplit t)
  | .null => isTrue trivial
  | .node point cell left right =>
    have := MedianSplit.instDecidable left
    have := MedianSplit.instDecidable right
    inferInstanceAs (Decidable
      (left.size = (KDNode.node point cell left right).size / 2 ∧
       right.size = (KDNode.node point cell left right).size - 1
         - (KDNode.node point cell left right).size / 2 ∧
       MedianSplit left ∧ MedianSplit right))

/-- The size balance can be checked by evaluation. -/
instance LeftHeavy.instDecidable : (t : KDNode) → Decidable (LeftHeavy t)
  | .null => isTrue trivial
  | .node _ _ left right =>
    have := LeftHeavy.instDecidable left
    have := LeftHeavy.instDecidable right
    inferInstanceAs (Decidable
      (right.size ≤ left.size ∧ left.size ≤ right.size + 1 ∧ LeftHeavy left ∧ LeftHeavy right))

/-- The sentinel of `RegularSearch::search`: `Cell(-1, -1, Point(0, 0), 0)`. -/
def scanSentinel : Cell := ⟨-1, -1, ⟨0, 0⟩, 0⟩

/-- The nine cells of the 3×3 scenario, row by row, with the grid addresses
that the enumeration in `main` assigns (column index, row index). -/
def grid3 : List Cell :=
  [⟨0, 0, ⟨1, 1⟩, 1⟩, ⟨1, 0, ⟨3, 1⟩, 1⟩, ⟨2, 0, ⟨5, 1⟩, 1⟩,
   ⟨0, 1, ⟨1, 3⟩, 1⟩, ⟨1, 1, ⟨3, 3⟩, 1⟩, ⟨2, 1, ⟨5, 3⟩, 1⟩,
   ⟨0, 2, ⟨1, 5⟩, 1⟩, ⟨1, 2, ⟨3, 5⟩, 1⟩, ⟨2, 2, ⟨5, 5⟩, 1⟩]

/-- The tree that `build` produces from the 3×3 scenario when the selection
routine is `sortSelect`. -/
def grid3Tree : KDNode :=
  .node ⟨3, 3⟩ ⟨1, 1, ⟨3, 3⟩, 1⟩
    (.node ⟨1, 3⟩ ⟨0, 1, ⟨1, 3⟩, 1⟩
      (.node ⟨3, 1⟩ ⟨1, 0, ⟨3, 1⟩, 1⟩
        (.node ⟨1, 1⟩ ⟨0, 0, ⟨1, 1⟩, 1⟩ .null .null) .null)
      (.node ⟨1, 5⟩ ⟨0, 2, ⟨1, 5⟩, 1⟩ .null .null))
    (.node ⟨3, 5⟩ ⟨1, 2, ⟨3, 5⟩, 1⟩
      (.node ⟨5, 3⟩ ⟨2, 1, ⟨5, 3⟩, 1⟩
        (.node ⟨5, 1⟩ ⟨2, 0, ⟨5, 1⟩, 1⟩ .null .null) .null)
      (.node ⟨5, 5⟩ ⟨2, 2, ⟨5, 5⟩, 1⟩ .null .null))

/-- A three-node tree whose children tie with the root on the x axis: the
root splits at `x = 3`, and both children have `x = 3`. -/
def tieTree : KDNode :=
  .node ⟨3, 3⟩ ⟨1, 1, ⟨3, 3⟩, 1⟩
    (.node ⟨3, 1⟩ ⟨1, 0, ⟨3, 1⟩, 1⟩ .null .null)
    (.node ⟨3, 5⟩ ⟨1, 2, ⟨3, 5⟩, 1⟩ .null .null)

/-- Two cells of different half-sizes: a small one centered at `(0, 0)` with
half-size `1/10` and a large one centered at `(-5, 0)` with half-size `10`. -/
def mixedCells : List Cell :=
  [⟨0, 0, ⟨0, 0⟩, 1 / 10⟩, ⟨1, 0, ⟨-5, 0⟩, 10⟩]

/-- The tree that `build` produces from `mixedCells`: the small cell at the
root, the large one as its left child. -/
def mixedTree : KDNode :=
  .node ⟨0, 0⟩ ⟨0, 0, ⟨0, 0⟩, 1 / 10⟩
    (.node ⟨-5, 0⟩ ⟨1, 0, ⟨-5, 0⟩, 10⟩ .null .null) .null

/-- Two adjacent cells of half-size `1`, listed right one first: centers
`(3, 1)` and `(1, 1)`; they share the boundary `x = 2`. -/
def pairCells : List Cell :=
  [⟨1, 0, ⟨3, 1⟩, 1⟩, ⟨0, 0, ⟨1, 1⟩, 1⟩]

/-- The tree that `build` produces from `pairCells`: the right cell at the
root, the left cell as its left child. -/
def pairTree : KDNode :=
  .node ⟨3, 1⟩ ⟨1, 0, ⟨3, 1⟩, 1⟩
    (.node ⟨1, 1⟩ ⟨0, 0, ⟨1, 1⟩, 1⟩ .null .null) .null

/-! # Lemmas -/

/-! ## Unfolding `buildTree` -/

theorem buildTree_null (sel : NthElement) (v : List Entry) (d s e : Nat) (h : e ≤ s) :
    buildTree sel v d s e = (KDNode.null, v) := by
  rw [buildTree]; simp [h]

theorem buildTree_step (sel : NthElement) (v : List Entry) (d s e mid : Nat)
    (v1 v2 v3 : List Entry) (pv : Entry) (tl tr : KDNode)
    (h : s < e) (hmid : mid = s + (e - s) / 2)
    (h1 : sel (lessAxis (d % 2)) v s mid e = v1)
    (hp : v1.getD mid default = pv)
    (hl : buildTree sel v1 (d + 1) s mid = (tl, v2))
    (hr : buildTree sel v2 (d + 1) (mid + 1) e = (tr, v3)) :
    buildTree sel v d s e = (KDNode.node pv.1 pv.2 tl tr, v3) := by
  subst hmid
  rw [buildTree]
  simp only [ge_iff_le, Nat.not_le.mpr h, if_false, h1, hp, hl, hr]

theorem getD_mid (l : List Entry) (pv : Entry) (rest : List Entry) :
    (l ++ pv :: rest).getD l.length default = pv := by
  induction l with
  | nil => simp
  | cons x xs ih => simpa using ih

theorem buildTree_spec (sel : NthElement) (hsel : NthElementOk sel) :
    ∀ (n : Nat) (pre s suf : List Entry) (depth : Nat), s.length = n →
      ∃ t s', buildTree sel (pre ++ s ++ suf) depth pre.length (pre.length + s.length)
          = (t, pre ++ s' ++ suf) ∧
        s'.Perm s ∧ t.entries = s' ∧ KDInv t depth := by
  intro n
  induction n using Nat.strong_induction_on with
  | _ n ih =>
    intro pre s suf depth hn
    by_cases hs : s.length = 0
    · have hnil : s = [] := List.length_eq_zero.mp hs
      subst hnil
      refine ⟨KDNode.null, [], ?_, List.Perm.refl _, rfl, trivial⟩
      exact buildTree_null _ _ _ _ _ (by simp)
    · have hlt : pre.length < pre.length + s.length := by omega
      obtain ⟨a, pv, b, hw, ha, hperm, hbef, haft⟩ :=
        hsel (depth % 2) (pre ++ s ++ suf) pre.length (pre.length + s.length / 2)
          (pre.length + s.length) (by omega) (by omega) (by simp)
      have htake : (pre ++ s ++ suf).take pre.length = pre := by simp
      have hdrop : (pre ++ s ++ suf).drop (pre.length + s.length) = suf := by
        rw [← List.length_append, List.drop_left]
      have hslice : slice (pre ++ s ++ suf) pre.length (pre.length + s.length) = s := by
        simp [slice]
      rw [htake, hdrop] at hw
      rw [hslice] at hperm
      have hlen : a.length + 1 + b.length = s.length := by
        have := hperm.length_eq
        simp at this
        omega
      have ha2 : a.length = s.length / 2 := by omega
      obtain ⟨tl, a', hl, hpa, hel, hil⟩ :=
        ih a.length (by omega) pre a (pv :: b ++ suf) (depth + 1) rfl
      have hla : a'.length = a.length := hpa.length_eq
      obtain ⟨tr, b', hr, hpb, her, hir⟩ :=
        ih b.length (by omega) (pre ++ a' ++ [pv]) b suf (depth + 1) rfl
      refine ⟨KDNode.node pv.1 pv.2 tl tr, a' ++ pv :: b', ?_, ?_, ?_, ?_⟩
      · refine buildTree_step sel _ depth _ _ (pre.length + a.length)
          (pre ++ a ++ (pv :: b ++ suf)) (pre ++ a' ++ (pv :: b ++ suf))
          (pre ++ (a' ++ pv :: b') ++ suf) pv tl tr hlt (by omega) ?_ ?_ hl ?_
        · rw [ha2, hw]; simp
        · have e0 : pre.length + a.length = (pre ++ a).length := by simp
          rw [e0]
          exact getD_mid (pre ++ a) pv (b ++ suf)
        · have e1 : pre ++ a' ++ (pv :: b ++ suf) = pre ++ a' ++ [pv] ++ b ++ suf := by simp
          have e2 : pre.length + a.length + 1 = (pre ++ a' ++ [pv]).length := by
            simp only [List.length_append, List.length_cons, List.length_nil, hla]
          have e3 : pre.length + s.length = (pre ++ a' ++ [pv]).length + b.length := by
            simp only [List.length_append, List.length_cons, List.length_nil, hla]
            omega
          have e4 : pre ++ (a' ++ pv :: b') ++ suf = pre ++ a' ++ [pv] ++ b' ++ suf := by simp
          rw [e1, e2, e3, e4]
          exact hr
      · exact (List.Perm.append hpa (List.Perm.cons pv hpb)).trans hperm
      · simp [KDNode.entries, hel, her]
      · refine ⟨?_, ?_, hil, hir⟩
        · intro x hx
          rw [hel] at hx
          have h1 := hbef x (hpa.subset hx)
          unfold lessAxis at h1
          unfold coord
          split_ifs at h1 ⊢ <;> simpa using h1
        · intro y hy
          rw [her] at hy
          have h1 := haft y (hpb.subset hy)
          unfold lessAxis at h1
          unfold coord
          split_ifs at h1 ⊢ <;> simpa using h1

/-! ## Unfolding `searchHelper` -/

theorem isNull_eq_false_of_mem {t : KDNode} {e : Entry} (h : e ∈ t.entries) :
    t.isNull = false := by
  cases t with
  | null => simp [KDNode.entries] at h
  | node _ _ _ _ => rfl

/-- One step of `searchHelper` at a node, with the near child `nb` and the far
child `ob` named. -/
theorem searchHelper_node (point : Point) (cell : Cell) (left right : KDNode)
    (target : Point) (depth : Nat) (nb ob : KDNode)
    (hnb : nb = if coord (depth % 2) target < coord (depth % 2) point then left else right)
    (hob : ob = if coord (depth % 2) target < coord (depth % 2) point then right else left) :
    searchHelper (KDNode.node point cell left right) target depth =
      if (!ob.isNull &&
          decide (|coord (depth % 2) target - coord (depth % 2) point| ≤
            (if nb.isNull then cell
              else if (searchHelper nb target (depth + 1)).contains target
                then searchHelper nb target (depth + 1) else cell).half_size)) = true
      then
        (if (searchHelper ob target (depth + 1)).contains target
          then searchHelper ob target (depth + 1)
          else (if nb.isNull then cell
              else if (searchHelper nb target (depth + 1)).contains target
                then searchHelper nb target (depth + 1) else cell))
      else (if nb.isNull then cell
              else if (searchHelper nb target (depth + 1)).contains target
                then searchHelper nb target (depth + 1) else cell) := by
  subst hnb hob
  simp only [searchHelper, coord]
  by_cases hax : depth % 2 = 0
  · by_cases hlt : target.x < point.x <;> simp [hax, hlt]
  · by_cases hlt : target.y < point.y <;> simp [hax, hlt]

theorem cells_node (point : Point) (cell : Cell) (left right : KDNode) :
    (KDNode.node point cell left right).cells = left.cells ++ cell :: right.cells := by
  simp [KDNode.cells, KDNode.entries]

/-- On a non-empty subtree `searchHelper` returns a stored cell. -/
theorem searchHelper_mem (target : Point) :
    ∀ (t : KDNode) (depth : Nat), t.isNull = false → searchHelper t target depth ∈ t.cells := by
  intro t
  induction t with
  | null => intro depth h; simp [KDNode.isNull] at h
  | node point cell left right ihl ihr =>
    intro depth _
    rw [searchHelper_node point cell left right target depth _ _ rfl rfl, cells_node]
    by_cases hlt : coord (depth % 2) target < coord (depth % 2) point
    · simp only [hlt, if_true]
      have hl := ihl (depth + 1)
      have hr := ihr (depth + 1)
      split_ifs <;> simp_all
    · simp only [hlt, if_false]
      have hl := ihl (depth + 1)
      have hr := ihr (depth + 1)
      split_ifs <;> simp_all

/-- When no stored cell contains the target, `searchHelper` returns the cell of
the node it is called on. -/
theorem searchHelper_of_none (target : Point) (point : Point) (cell : Cell)
    (left right : KDNode) (depth : Nat)
    (hnone : ∀ c ∈ (KDNode.node point cell left right).cells, c.contains target = false) :
    searchHelper (KDNode.node point cell left right) target depth = cell := by
  rw [cells_node] at hnone
  have hsub : ∀ (t : KDNode) (d : Nat), (∀ c ∈ t.cells, c ∈ left.cells ++ cell :: right.cells) →
      t.isNull = false → (searchHelper t target d).contains target = false := by
    intro t d hs hn
    exact hnone _ (hs _ (searchHelper_mem target t d hn))
  have hl := hsub left (depth + 1) (by intro c hc; simp [hc])
  have hr := hsub right (depth + 1) (by intro c hc; simp [hc])
  rw [searchHelper_node point cell left right target depth _ _ rfl rfl]
  by_cases hlt : coord (depth % 2) target < coord (depth % 2) point
  · simp only [hlt, if_true]
    split_ifs <;> simp_all
  · simp only [hlt, if_false]
    split_ifs <;> simp_all

theorem contains_iff (c : Cell) (p : Point) :
    c.contains p = true ↔
      |p.x - c.center.x| ≤ c.half_size ∧ |p.y - c.center.y| ≤ c.half_size := by
  simp [Cell.contains]

theorem contains_coord {c : Cell} {p : Point} (h : c.contains p = true) (axis : Nat) :
    |coord axis p - coord axis c.center| ≤ c.half_size := by
  rw [contains_iff] at h
  unfold coord
  split_ifs
  · exact h.1
  · exact h.2

theorem mem_cells_iff (t : KDNode) (c : Cell) :
    c ∈ t.cells ↔ ∃ e ∈ t.entries, e.2 = c := by
  simp [KDNode.cells]

/-- The generic step of the completeness argument: `nb` is the near child, `ob`
the far child, `dist` the distance to the splitting line, `h` the common
half-size. -/
theorem search_step_contains (cell : Cell) (nb ob : KDNode) (target : Point) (d : Nat)
    (dist h : ℚ) (hcellh : cell.half_size = h)
    (hnbh : ∀ c ∈ nb.cells, c.half_size = h)
    (hnb : (∃ c ∈ nb.cells, c.contains target = true) →
      (searchHelper nb target d).contains target = true)
    (hob : (∃ c ∈ ob.cells, c.contains target = true) →
      (searchHelper ob target d).contains target = true ∧ dist ≤ h)
    (hex : cell.contains target = true ∨ (∃ c ∈ nb.cells, c.contains target = true) ∨
      (∃ c ∈ ob.cells, c.contains target = true)) :
    (if (!ob.isNull &&
          decide (dist ≤
            (if nb.isNull then cell
              else if (searchHelper nb target d).contains target
                then searchHelper nb target d else cell).half_size)) = true
      then
        (if (searchHelper ob target d).contains target
          then searchHelper ob target d
          else (if nb.isNull then cell
              else if (searchHelper nb target d).contains target
                then searchHelper nb target d else cell))
      else (if nb.isNull then cell
              else if (searchHelper nb target d).contains target
                then searchHelper nb target d else cell)).contains target = true := by
  have hb1h : (if nb.isNull then cell
              else if (searchHelper nb target d).contains target
                then searchHelper nb target d else cell).half_size = h := by
    split_ifs with h1 h2
    · exact hcellh
    · exact hnbh _ (searchHelper_mem target nb d (by simpa using h1))
    · exact hcellh
  rw [hb1h]
  rcases hex with hc | ⟨c, hc, hcc⟩ | ⟨c, hc, hcc⟩
  · split_ifs <;> simp_all
  · have hA := hnb ⟨c, hc, hcc⟩
    obtain ⟨e, he, _⟩ := (mem_cells_iff nb c).mp hc
    have hn := isNull_eq_false_of_mem he
    split_ifs <;> simp_all
  · obtain ⟨hB, hd⟩ := hob ⟨c, hc, hcc⟩
    obtain ⟨e, he, _⟩ := (mem_cells_iff ob c).mp hc
    have hn := isNull_eq_false_of_mem he
    simp [hn, hd, hB]

/-- Completeness of `searchHelper` under the k-d ordering invariant when every
node's point is the center of its cell and all cells have half-size `h`. -/
theorem searchHelper_complete (target : Point) (h : ℚ) :
    ∀ (t : KDNode) (depth : Nat), KDInv t depth →
      (∀ e ∈ t.entries, e.1 = e.2.center) → (∀ e ∈ t.entries, e.2.half_size = h) →
      (∃ c ∈ t.cells, c.contains target = true) →
      (searchHelper t target depth).contains target = true := by
  intro t
  induction t with
  | null => intro depth _ _ _ hex; simp [KDNode.cells, KDNode.entries] at hex
  | node point cell left right ihl ihr =>
    intro depth hinv hcen hsz hex
    obtain ⟨hL, hR, hIl, hIr⟩ := hinv
    have hcl : ∀ e ∈ left.entries, e.1 = e.2.center :=
      fun e he => hcen e (by simp [KDNode.entries, he])
    have hcr : ∀ e ∈ right.entries, e.1 = e.2.center :=
      fun e he => hcen e (by simp [KDNode.entries, he])
    have hsl : ∀ e ∈ left.entries, e.2.half_size = h :=
      fun e he => hsz e (by simp [KDNode.entries, he])
    have hsr : ∀ e ∈ right.entries, e.2.half_size = h :=
      fun e he => hsz e (by simp [KDNode.entries, he])
    have hsc : cell.half_size = h := hsz (point, cell) (by simp [KDNode.entries])
    have hslc : ∀ c ∈ left.cells, c.half_size = h := by
      intro c hc
      obtain ⟨e, he, rfl⟩ := (mem_cells_iff left c).mp hc
      exact hsl e he
    have hsrc : ∀ c ∈ right.cells, c.half_size = h := by
      intro c hc
      obtain ⟨e, he, rfl⟩ := (mem_cells_iff right c).mp hc
      exact hsr e he
    have hLc := ihl (depth + 1) hIl hcl hsl
    have hRc := ihr (depth + 1) hIr hcr hsr
    rw [cells_node] at hex
    rw [searchHelper_node point cell left right target depth _ _ rfl rfl]
    by_cases hlt : coord (depth % 2) target < coord (depth % 2) point
    · simp only [hlt, if_true]
      refine search_step_contains cell left right target (depth + 1) _ h hsc hslc hLc ?_ ?_
      · rintro ⟨c, hc, hcc⟩
        refine ⟨hRc ⟨c, hc, hcc⟩, ?_⟩
        obtain ⟨e, he, rfl⟩ := (mem_cells_iff right _).mp hc
        have h1 := hR e he
        have h2 := contains_coord hcc (depth % 2)
        rw [← hcr e he, hsr e he] at h2
        rw [abs_le] at h2 ⊢
        constructor <;> linarith [h2.1, h2.2]
      · obtain ⟨c, hc, hcc⟩ := hex
        rcases List.mem_append.mp hc with h1 | h1
        · exact Or.inr (Or.inl ⟨c, h1, hcc⟩)
        · rcases List.mem_cons.mp h1 with h2 | h2
          · exact Or.inl (h2 ▸ hcc)
          · exact Or.inr (Or.inr ⟨c, h2, hcc⟩)
    · simp only [hlt, if_false]
      refine search_step_contains cell right left target (depth + 1) _ h hsc hsrc hRc ?_ ?_
      · rintro ⟨c, hc, hcc⟩
        refine ⟨hLc ⟨c, hc, hcc⟩, ?_⟩
        obtain ⟨e, he, rfl⟩ := (mem_cells_iff left _).mp hc
        have h1 := hL e he
        have h2 := contains_coord hcc (depth % 2)
        rw [← hcl e he, hsl e he] at h2
        rw [abs_le] at h2 ⊢
        constructor <;> linarith [h2.1, h2.2, not_lt.mp hlt]
      · obtain ⟨c, hc, hcc⟩ := hex
        rcases List.mem_append.mp hc with h1 | h1
        · exact Or.inr (Or.inr ⟨c, h1, hcc⟩)
        · rcases List.mem_cons.mp h1 with h2 | h2
          · exact Or.inl (h2 ▸ hcc)
          · exact Or.inr (Or.inl ⟨c, h2, hcc⟩)

/-! ## The sorting selection routine honours the postcondition -/

theorem slice_length (v : List Entry) (first last : Nat) (h2 : last ≤ v.length) :
    (slice v first last).length = last - first := by
  simp [slice]; omega

theorem notLess_total (axis : Nat) (a b : Entry) :
    lessAxis axis b a = false ∨ lessAxis axis a b = false := by
  unfold lessAxis
  split_ifs
  · simp only [decide_eq_false_iff_not, not_lt]; exact le_total _ _
  · simp only [decide_eq_false_iff_not, not_lt]; exact le_total _ _

theorem notLess_trans (axis : Nat) (a b c : Entry)
    (h1 : lessAxis axis b a = false) (h2 : lessAxis axis c b = false) :
    lessAxis axis c a = false := by
  unfold lessAxis at *
  split_ifs at * <;> simp only [decide_eq_false_iff_not, not_lt] at * <;> exact le_trans h1 h2

theorem sortSelect_ok : NthElementOk sortSelect := by
  intro axis v first nth last h1 h2 h3
  unfold NthElementPost sortSelect
  have hlen : (slice v first last).length = last - first :=
    slice_length v first last h3
  have hsorted : List.Sorted (fun a b => lessAxis axis b a = false)
      ((slice v first last).insertionSort (fun a b => lessAxis axis b a = false)) :=
    @List.sorted_insertionSort Entry (fun a b => lessAxis axis b a = false) _
      ⟨fun a b => notLess_total axis a b⟩ ⟨fun a b c => notLess_trans axis a b c⟩ _
  have hp : ((slice v first last).insertionSort (fun a b => lessAxis axis b a = false)).Perm
      (slice v first last) := List.perm_insertionSort _ _
  generalize (slice v first last).insertionSort (fun a b => lessAxis axis b a = false) = srt
    at hsorted hp ⊢
  have hk : nth - first < srt.length := by rw [hp.length_eq, hlen]; omega
  have hsplit : srt = srt.take (nth - first) ++ srt[nth - first] :: srt.drop (nth - first + 1) := by
    rw [← List.drop_eq_getElem_cons hk, List.take_append_drop]
  refine ⟨srt.take (nth - first), srt[nth - first], srt.drop (nth - first + 1), ?_, ?_, ?_, ?_, ?_⟩
  · rw [← hsplit]
  · rw [List.length_take]; omega
  · rw [← hsplit]; exact hp
  · rw [hsplit] at hsorted
    have := (List.pairwise_append.mp hsorted).2.2
    intro x hx
    exact this x hx _ (List.mem_cons_self _ _)
  · rw [hsplit] at hsorted
    have := (List.pairwise_cons.mp (List.pairwise_append.mp hsorted).2.1).1
    intro y hy
    exact this y hy

/-! ## Shape of the built tree -/

theorem buildTree_fst_node (sel : NthElement) (v : List Entry) (d s e : Nat) (h : s < e) :
    ∃ (pv : Entry) (v1 v2 : List Entry),
      (buildTree sel v d s e).1 =
        KDNode.node pv.1 pv.2 (buildTree sel v1 (d + 1) s (s + (e - s) / 2)).1
          (buildTree sel v2 (d + 1) (s + (e - s) / 2 + 1) e).1 := by
  have hstep := buildTree_step sel v d s e (s + (e - s) / 2)
    (sel (lessAxis (d % 2)) v s (s + (e - s) / 2) e)
    (buildTree sel (sel (lessAxis (d % 2)) v s (s + (e - s) / 2) e) (d + 1) s
      (s + (e - s) / 2)).2
    _ _ _ _ h rfl rfl rfl Prod.mk.eta.symm Prod.mk.eta.symm
  exact ⟨_, _, _, congrArg Prod.fst hstep⟩

theorem buildTree_shape (sel : NthElement) :
    ∀ (n : Nat) (v : List Entry) (d s e : Nat), e - s = n →
      (buildTree sel v d s e).1.size = e - s ∧ MedianSplit (buildTree sel v d s e).1 := by
  intro n
  induction n using Nat.strong_induction_on with
  | _ n ih =>
    intro v d s e hn
    by_cases h : s < e
    · obtain ⟨pv, v1, v2, heq⟩ := buildTree_fst_node sel v d s e h
      obtain ⟨hl1, hl2⟩ := ih ((s + (e - s) / 2) - s) (by omega) v1 (d + 1) s
        (s + (e - s) / 2) rfl
      obtain ⟨hr1, hr2⟩ := ih (e - (s + (e - s) / 2 + 1)) (by omega) v2 (d + 1)
        (s + (e - s) / 2 + 1) e rfl
      rw [heq]
      refine ⟨?_, ?_, ?_, hl2, hr2⟩
      · simp only [KDNode.size, hl1, hr1]; omega
      · simp only [KDNode.size, hl1, hr1]; omega
      · simp only [KDNode.size, hl1, hr1]; omega
    · rw [buildTree_null sel v d s e (by omega)]
      exact ⟨by simp [KDNode.size]; omega, trivial⟩

theorem leftHeavy_of_medianSplit : ∀ (t : KDNode), MedianSplit t → LeftHeavy t := by
  intro t
  induction t with
  | null => intro _; trivial
  | node point cell left right ihl ihr =>
    intro h
    obtain ⟨h1, h2, hl, hr⟩ := h
    simp only [KDNode.size] at h1 h2
    exact ⟨by omega, by omega, ihl hl, ihr hr⟩

theorem height_of_medianSplit : ∀ (t : KDNode), MedianSplit t →
    t.height = if t.size = 0 then 0 else Nat.log 2 t.size + 1 := by
  intro t
  induction t with
  | null => intro _; simp [KDNode.height, KDNode.size]
  | node point cell left right ihl ihr =>
    intro h
    obtain ⟨h1, h2, hl, hr⟩ := h
    have el := ihl hl
    have er := ihr hr
    simp only [KDNode.size] at h1 h2
    have hle : right.height ≤ left.height := by
      rw [el, er]
      by_cases hr0 : right.size = 0
      · simp [hr0]
      · have hl0 : left.size ≠ 0 := by omega
        simp only [hr0, hl0, if_false]
        have := Nat.log_mono_right (b := 2) (show right.size ≤ left.size by omega)
        omega
    simp only [KDNode.height, KDNode.size, max_eq_left hle]
    have hn0 : left.size + 1 + right.size ≠ 0 := by omega
    simp only [hn0, if_false]
    rw [el]
    by_cases hl0 : left.size = 0
    · have hr0 : right.size = 0 := by omega
      simp [hl0, hr0]
    · simp only [hl0, if_false]
      rw [Nat.log_of_one_lt_of_le (by norm_num : 1 < 2)
        (show 2 ≤ left.size + 1 + right.size by omega), ← h1]
      omega

/-! ## The exhaustive scan -/

theorem searchLoop_spec (result : Cell) (target : Point) :
    ∀ (cells : List Cell),
      (∃ pre c post, cells = pre ++ c :: post ∧ (∀ x ∈ pre, x.contains target = false) ∧
        c.contains target = true ∧ RegularSearch.searchLoop result target cells = c) ∨
      ((∀ x ∈ cells, x.contains target = false) ∧
        RegularSearch.searchLoop result target cells = result) := by
  intro cells
  induction cells with
  | nil => right; simp [RegularSearch.searchLoop]
  | cons a rest ih =>
    by_cases ha : a.contains target = true
    · left
      exact ⟨[], a, rest, rfl, by simp, ha, by simp [RegularSearch.searchLoop, ha]⟩
    · have ha2 : a.contains target = false := by simpa using ha
      rcases ih with ⟨pre, c, post, h1, h2, h3, h4⟩ | ⟨h1, h2⟩
      · left
        refine ⟨a :: pre, c, post, by simp [h1], ?_, h3, ?_⟩
        · intro x hx
          rcases List.mem_cons.mp hx with rfl | hx
          · exact ha2
          · exact h2 x hx
        · simp [RegularSearch.searchLoop, ha2, h4]
      · right
        refine ⟨?_, by simp [RegularSearch.searchLoop, ha2, h2]⟩
        intro x hx
        rcases List.mem_cons.mp hx with rfl | hx
        · exact ha2
        · exact h1 x hx

theorem scan_of_none (cells : List Cell) (target : Point)
    (h : ∀ x ∈ cells, x.contains target = false) :
    (RegularSearch.mk cells).search target = scanSentinel := by
  rcases searchLoop_spec scanSentinel target cells with ⟨pre, c, post, h1, _, h3, _⟩ | ⟨_, h2⟩
  · have := h c (by simp [h1])
    simp [this] at h3
  · exact h2

theorem scan_of_some (cells : List Cell) (target : Point)
    (h : ∃ x ∈ cells, x.contains target = true) :
    (RegularSearch.mk cells).search target ∈ cells ∧
      ((RegularSearch.mk cells).search target).contains target = true := by
  rcases searchLoop_spec scanSentinel target cells with ⟨pre, c, post, h1, _, h3, h4⟩ | ⟨h1, _⟩
  · have h5 : (RegularSearch.mk cells).search target = c := h4
    rw [h5]
    exact ⟨by simp [h1], h3⟩
  · obtain ⟨x, hx, hxc⟩ := h
    simp [h1 x hx] at hxc



/-! ## Evaluation on the 3×3 scenario -/

theorem buildTree_node (sel : NthElement) (v : List Entry) (d s e : Nat) (h : s < e) :
    buildTree sel v d s e =
      (KDNode.node
        ((sel (lessAxis (d % 2)) v s (s + (e - s) / 2) e).getD (s + (e - s) / 2) default).1
        ((sel (lessAxis (d % 2)) v s (s + (e - s) / 2) e).getD (s + (e - s) / 2) default).2
        (buildTree sel (sel (lessAxis (d % 2)) v s (s + (e - s) / 2) e) (d + 1) s
          (s + (e - s) / 2)).1
        (buildTree sel (buildTree sel (sel (lessAxis (d % 2)) v s (s + (e - s) / 2) e) (d + 1) s
          (s + (e - s) / 2)).2 (d + 1) (s + (e - s) / 2 + 1) e).1,
       (buildTree sel (buildTree sel (sel (lessAxis (d % 2)) v s (s + (e - s) / 2) e) (d + 1) s
          (s + (e - s) / 2)).2 (d + 1) (s + (e - s) / 2 + 1) e).2) :=
  buildTree_step sel v d s e (s + (e - s) / 2) _ _ _ _ _ _ h rfl rfl rfl
    Prod.mk.eta.symm Prod.mk.eta.symm

theorem build_grid3 (index : KDTree) :
    (KDTree.build sortSelect index (allCells grid3)).1 = ⟨grid3Tree, 9⟩ := by
  simp [KDTree.build, allCells, grid3, grid3Tree, buildTree_node, buildTree_null, sortSelect,
    slice, lessAxis]
  norm_num [List.insertionSort, List.orderedInsert]

theorem search_grid3_00 : searchHelper grid3Tree ⟨0, 0⟩ 0 = ⟨0, 0, ⟨1, 1⟩, 1⟩ := by
  norm_num [searchHelper, grid3Tree, Cell.contains, KDNode.isNull, abs_le]

/-! ## Consequences for `build` and `search` -/

theorem size_eq_length_entries : ∀ (t : KDNode), t.size = t.entries.length := by
  intro t
  induction t with
  | null => rfl
  | node point cell left right ihl ihr =>
    simp only [KDNode.size, KDNode.entries, List.length_append, List.length_cons, ihl, ihr]
    omega

theorem build_root (sel : NthElement) (index : KDTree) (points : List Entry) :
    (KDTree.build sel index points).1.root = (buildTree sel points 0 0 points.length).1 := rfl

/-- The tree built from `points` stores a rearrangement of `points` and
satisfies the k-d ordering invariant from depth `0`. -/
theorem build_root_spec (sel : NthElement) (hsel : NthElementOk sel) (index : KDTree)
    (points : List Entry) :
    (KDTree.build sel index points).1.root.entries.Perm points ∧
      KDInv (KDTree.build sel index points).1.root 0 := by
  obtain ⟨t, s', h, hp, he, hi⟩ := buildTree_spec sel hsel points.length [] points [] 0 rfl
  simp only [List.nil_append, List.append_nil, List.length_nil, Nat.zero_add] at h
  rw [build_root, h]
  exact ⟨he ▸ hp, hi⟩

theorem search_eq_searchHelper (index : KDTree) (target : Point)
    (h : index.root.isNull = false) :
    index.search target = searchHelper index.root target 0 := by
  simp [KDTree.search, h]

/-- Completeness of `KDTree::search` under the invariant and a common half-size. -/
theorem search_of_some (index : KDTree) (target : Point) (h : ℚ)
    (hinv : KDInv index.root 0)
    (hcenter : ∀ e ∈ index.root.entries, e.1 = e.2.center)
    (hsize : ∀ e ∈ index.root.entries, e.2.half_size = h)
    (hex : ∃ c ∈ index.root.cells, c.contains target = true) :
    index.search target ∈ index.root.cells ∧ (index.search target).contains target = true := by
  have hn : index.root.isNull = false := by
    obtain ⟨c, hc, _⟩ := hex
    obtain ⟨e, he, _⟩ := (mem_cells_iff _ c).mp hc
    exact isNull_eq_false_of_mem he
  rw [search_eq_searchHelper index target hn]
  exact ⟨searchHelper_mem target _ 0 hn,
    searchHelper_complete target h _ 0 hinv hcenter hsize hex⟩

/-- What `KDTree::search` after `build` returns when some cell contains the
target: a cell of the input that contains the target. -/
theorem build_search_of_some (sel : NthElement) (hsel : NthElementOk sel) (index : KDTree)
    (entries : List Entry) (h : ℚ) (target : Point)
    (hsize : ∀ e ∈ entries, e.2.half_size = h)
    (hcenter : ∀ e ∈ entries, e.1 = e.2.center)
    (hex : ∃ c ∈ entries.map Prod.snd, c.contains target = true) :
    (KDTree.build sel index entries).1.search target ∈ entries.map Prod.snd ∧
      ((KDTree.build sel index entries).1.search target).contains target = true := by
  obtain ⟨hperm, hinv⟩ := build_root_spec sel hsel index entries
  have hcells : ∀ c, c ∈ (KDTree.build sel index entries).1.root.cells ↔
      c ∈ entries.map Prod.snd := fun c => (hperm.map Prod.snd).mem_iff
  have := search_of_some (KDTree.build sel index entries).1 target h hinv
    (fun e he => hcenter e (hperm.subset he)) (fun e he => hsize e (hperm.subset he))
    (by obtain ⟨c, hc, hcc⟩ := hex; exact ⟨c, (hcells c).mpr hc, hcc⟩)
  exact ⟨(hcells _).mp this.1, this.2⟩

/-- When no stored cell contains the target, `KDTree::search` returns the cell
of the root node. -/
theorem search_of_none (point : Point) (cell : Cell) (left right : KDNode) (n : Nat)
    (target : Point)
    (hnone : ∀ c ∈ (KDNode.node point cell left right).cells, c.contains target = false) :
    (KDTree.mk (KDNode.node point cell left right) n).search target = cell := by
  rw [search_eq_searchHelper (KDTree.mk (KDNode.node point cell left right) n) target rfl]
  exact searchHelper_of_none target point cell left right 0 hnone

theorem cell_contains_center (c : Cell) (h : 0 ≤ c.half_size) : c.contains c.center = true := by
  simp [Cell.contains, h]

theorem cell_eq_self (c : Cell) : c.eq c = true := by
  simp [Cell.eq, Point.eq, eps]

/-- Separated centers: a cell of half-size `h > 0` that contains the center of
another listed cell is that cell. -/
theorem eq_of_contains_center (cells : List Cell) (h : ℚ) (hpos : 0 < h)
    (hsep : cells.Pairwise (fun a b =>
      2 * h ≤ |a.center.x - b.center.x| ∨ 2 * h ≤ |a.center.y - b.center.y|))
    (c c' : Cell) (hc : c ∈ cells) (hc' : c' ∈ cells) (hh : c'.half_size = h)
    (hcon : c'.contains c.center = true) : c' = c := by
  by_contra hne
  have hsymm : Symmetric (fun a b : Cell =>
      2 * h ≤ |a.center.x - b.center.x| ∨ 2 * h ≤ |a.center.y - b.center.y|) := by
    intro a b hab
    rw [abs_sub_comm b.center.x, abs_sub_comm b.center.y]
    exact hab
  have := hsep.forall hsymm hc hc' (fun e => hne e.symm)
  rw [contains_iff, hh] at hcon
  rcases this with h1 | h1 <;> linarith [hcon.1, hcon.2]

theorem allCells_map_snd (cells : List Cell) : (allCells cells).map Prod.snd = cells := by
  induction cells with
  | nil => rfl
  | cons c rest ih =>
    simp only [allCells, List.map_cons, List.map_map] at ih ⊢
    rw [ih]

/-! ## Inputs whose tree does not depend on the selection routine -/

theorem eq_null_of_size_zero : ∀ (t : KDNode), t.size = 0 → t = KDNode.null := by
  intro t h
  cases t with
  | null => rfl
  | node _ _ _ _ => simp only [KDNode.size] at h; omega

/-- Every selection routine that honours the postcondition builds the same
tree from `pairCells`. -/
theorem build_pair (sel : NthElement) (hsel : NthElementOk sel) (index : KDTree) :
    (KDTree.build sel index (allCells pairCells)).1.root = pairTree := by
  obtain ⟨hperm, hinv⟩ := build_root_spec sel hsel index (allCells pairCells)
  obtain ⟨hsize, hshape⟩ := buildTree_shape sel 2 (allCells pairCells) 0 0 2 rfl
  have hroot : (KDTree.build sel index (allCells pairCells)).1.root
      = (buildTree sel (allCells pairCells) 0 0 2).1 := rfl
  rw [hroot] at hperm hinv ⊢
  generalize (buildTree sel (allCells pairCells) 0 0 2).1 = t at hperm hinv hsize hshape
  cases t with
  | null => simp [KDNode.size] at hsize
  | node pt cell l r =>
    obtain ⟨hl, hr, -, -⟩ := hshape
    rw [hsize] at hl hr
    have hrn := eq_null_of_size_zero r (by omega)
    subst hrn
    cases l with
    | null => simp [KDNode.size] at hl
    | node pt2 cell2 l2 r2 =>
      simp only [KDNode.size] at hl
      have h1 := eq_null_of_size_zero l2 (by omega)
      have h2 := eq_null_of_size_zero r2 (by omega)
      subst h1 h2
      have hle := hinv.1 (pt2, cell2) (by simp [KDNode.entries])
      simp only [KDNode.entries, List.nil_append, List.singleton_append, allCells, pairCells,
        List.map_cons, List.map_nil] at hperm
      have m1 := hperm.subset (List.mem_cons_self _ _)
      have m2 := hperm.subset (List.mem_cons_of_mem _ (List.mem_cons_self _ _))
      have m3 := hperm.symm.subset (List.mem_cons_self _ _)
      have m4 := hperm.symm.subset (List.mem_cons_of_mem _ (List.mem_cons_self _ _))
      simp only [List.mem_cons, List.mem_singleton, List.not_mem_nil, or_false,
        Prod.mk.injEq] at m1 m2 m3 m4
      simp only [coord, Nat.zero_mod, if_true] at hle
      rcases m1 with ⟨rfl, rfl⟩ | ⟨rfl, rfl⟩ <;> rcases m2 with ⟨rfl, rfl⟩ | ⟨rfl, rfl⟩
      · norm_num at m4
      · norm_num at hle
      · rfl
      · norm_num at m3

theorem search_pair (n : Nat) :
    (KDTree.mk pairTree n).search ⟨2, 1⟩ = ⟨0, 0, ⟨1, 1⟩, 1⟩ := by
  norm_num [KDTree.search, searchHelper, pairTree, Cell.contains, KDNode.isNull, abs_le]

/-- On a non-empty input `KDTree::search` after `build` returns a cell of the
input, whatever the query point. -/
theorem build_search_mem (sel : NthElement) (hsel : NthElementOk sel) (index : KDTree)
    (entries : List Entry) (p : Point) (hne : entries ≠ []) :
    (KDTree.build sel index entries).1.search p ∈ entries.map Prod.snd := by
  obtain ⟨hperm, -⟩ := build_root_spec sel hsel index entries
  have hn : (KDTree.build sel index entries).1.root.isNull = false := by
    obtain ⟨e, he⟩ := List.exists_mem_of_ne_nil entries hne
    exact isNull_eq_false_of_mem (hperm.symm.subset he)
  rw [search_eq_searchHelper _ p hn]
  exact ((hperm.map Prod.snd).mem_iff).mp (searchHelper_mem p _ 0 hn)

/-! # The claims -/

/-- C1. Agreement at cell centers: when all cells have the same half-size
`h > 0`, the centers of any two listed cells differ by at least `2 * h` on some
axis and every entry pairs a cell with its own center, then for the center of
any listed cell `c`, `KDTree::search` after `KDTree::build` and
`RegularSearch::search` over the same cells both return `c` (so they are equal,
also in the sense of `Cell::operator==`), for every selection routine that
honours the postcondition of `std::nth_element`. -/
theorem agreement_at_cell_centers (sel : NthElement) (hsel : NthElementOk sel)
    (index : KDTree) (entries : List Entry) (h : ℚ) (hpos : 0 < h)
    (hsize : ∀ e ∈ entries, e.2.half_size = h)
    (hcenter : ∀ e ∈ entries, e.1 = e.2.center)
    (hsep : (entries.map Prod.snd).Pairwise (fun a b =>
      2 * h ≤ |a.center.x - b.center.x| ∨ 2 * h ≤ |a.center.y - b.center.y|))
    (c : Cell) (hc : c ∈ entries.map Prod.snd) :
    (KDTree.build sel index entries).1.search c.center = c ∧
    (RegularSearch.mk (entries.map Prod.snd)).search c.center = c ∧
    ((KDTree.build sel index entries).1.search c.center).eq
      ((RegularSearch.mk (entries.map Prod.snd)).search c.center) = true := by
  have hch : c.half_size = h := by
    obtain ⟨e, he, rfl⟩ := List.mem_map.mp hc
    exact hsize e he
  have hsz : ∀ c' ∈ entries.map Prod.snd, c'.half_size = h := by
    intro c' hc'
    obtain ⟨e, he, rfl⟩ := List.mem_map.mp hc'
    exact hsize e he
  have hex : ∃ c' ∈ entries.map Prod.snd, c'.contains c.center = true :=
    ⟨c, hc, cell_contains_center c (by rw [hch]; exact hpos.le)⟩
  obtain ⟨hk1, hk2⟩ := build_search_of_some sel hsel index entries h c.center hsize hcenter hex
  obtain ⟨hs1, hs2⟩ := scan_of_some (entries.map Prod.snd) c.center hex
  have e1 := eq_of_contains_center _ h hpos hsep c _ hc hk1 (hsz _ hk1) hk2
  have e2 := eq_of_contains_center _ h hpos hsep c _ hc hs1 (hsz _ hs1) hs2
  rw [e1, e2]
  exact ⟨rfl, rfl, cell_eq_self c⟩

/-- The 3×3 scenario with the query `(3, 3)`: both strategies return the cell
centered at `(3, 3)`. -/
theorem agreement_at_cell_centers_witness :
    (KDTree.build sortSelect KDTree.new (allCells grid3)).1.search ⟨3, 3⟩ = ⟨1, 1, ⟨3, 3⟩, 1⟩ ∧
    (RegularSearch.mk ((allCells grid3).map Prod.snd)).search ⟨3, 3⟩ = ⟨1, 1, ⟨3, 3⟩, 1⟩ ∧
    ((KDTree.build sortSelect KDTree.new (allCells grid3)).1.search ⟨3, 3⟩).eq
      ((RegularSearch.mk ((allCells grid3).map Prod.snd)).search ⟨3, 3⟩) = true :=
  agreement_at_cell_centers sortSelect sortSelect_ok KDTree.new (allCells grid3) 1
    (by norm_num) (by simp [allCells, grid3]) (by simp [allCells])
    (by simp [allCells, grid3]; norm_num [le_abs])
    ⟨1, 1, ⟨3, 3⟩, 1⟩ (by simp [allCells, grid3])

/-- C2, counterexample. Both instances are uniform grids of half-size `1` and
the disagreement holds for every selection routine that honours the
postcondition of `std::nth_element`.  On the 3×3 scenario no cell contains the
outside point `(-1, -1)`: the scan returns its sentinel while the index returns
a cell of the grid.  On the two adjacent cells centered at `(3, 1)` and
`(1, 1)`, listed in that order, the boundary point `(2, 1)` lies in both: the
scan returns the first listed cell, centered at `(3, 1)`, while the index
returns the cell centered at `(1, 1)`. -/
theorem identical_results_counterexample :
    ((∀ c ∈ grid3, c.half_size = 1 ∧ c.center = ⟨1 + 2 * c.grid_x, 1 + 2 * c.grid_y⟩) ∧
      (∀ c ∈ grid3, c.contains ⟨-1, -1⟩ = false) ∧
      (RegularSearch.mk grid3).search ⟨-1, -1⟩ = ⟨-1, -1, ⟨0, 0⟩, 0⟩ ∧
      (∀ (sel : NthElement), NthElementOk sel → ∀ (index : KDTree),
        (KDTree.build sel index (allCells grid3)).1.search ⟨-1, -1⟩ ∈ grid3 ∧
        (KDTree.build sel index (allCells grid3)).1.search ⟨-1, -1⟩
          ≠ (RegularSearch.mk grid3).search ⟨-1, -1⟩ ∧
        ((KDTree.build sel index (allCells grid3)).1.search ⟨-1, -1⟩).eq
          ((RegularSearch.mk grid3).search ⟨-1, -1⟩) = false)) ∧
    ((∀ c ∈ pairCells, c.half_size = 1 ∧ c.center = ⟨1 + 2 * c.grid_x, 1 + 2 * c.grid_y⟩) ∧
      (∀ c ∈ pairCells, c.contains ⟨2, 1⟩ = true) ∧
      (RegularSearch.mk pairCells).search ⟨2, 1⟩ = ⟨1, 0, ⟨3, 1⟩, 1⟩ ∧
      (∀ (sel : NthElement), NthElementOk sel → ∀ (index : KDTree),
        (KDTree.build sel index (allCells pairCells)).1.search ⟨2, 1⟩
          = ⟨0, 0, ⟨1, 1⟩, 1⟩ ∧
        (KDTree.build sel index (allCells pairCells)).1.search ⟨2, 1⟩
          ≠ (RegularSearch.mk pairCells).search ⟨2, 1⟩ ∧
        ((KDTree.build sel index (allCells pairCells)).1.search ⟨2, 1⟩).eq
          ((RegularSearch.mk pairCells).search ⟨2, 1⟩) = false)) := by
  have hscan1 : (RegularSearch.mk grid3).search ⟨-1, -1⟩ = ⟨-1, -1, ⟨0, 0⟩, 0⟩ := by
    norm_num [RegularSearch.search, RegularSearch.searchLoop, grid3, Cell.contains, abs_le]
  have hscan2 : (RegularSearch.mk pairCells).search ⟨2, 1⟩ = ⟨1, 0, ⟨3, 1⟩, 1⟩ := by
    norm_num [RegularSearch.search, RegularSearch.searchLoop, pairCells, Cell.contains,
      abs_le]
  have hne1 : ∀ c ∈ grid3, c ≠ ⟨-1, -1, ⟨0, 0⟩, 0⟩ ∧ c.eq ⟨-1, -1, ⟨0, 0⟩, 0⟩ = false := by
    simp [grid3, Cell.eq]
  refine ⟨⟨?_, ?_, hscan1, ?_⟩, ⟨?_, ?_, hscan2, ?_⟩⟩
  · simp [grid3]; norm_num
  · simp [grid3]; norm_num [Cell.contains, abs_le]
  · intro sel hsel index
    have hmem := build_search_mem sel hsel index (allCells grid3) ⟨-1, -1⟩
      (by simp [allCells, grid3])
    rw [allCells_map_snd] at hmem
    rw [hscan1]
    exact ⟨hmem, (hne1 _ hmem).1, (hne1 _ hmem).2⟩
  · simp [pairCells]; norm_num
  · simp [pairCells]; norm_num [Cell.contains, abs_le]
  · intro sel hsel index
    have hroot := build_pair sel hsel index
    have hk : (KDTree.build sel index (allCells pairCells)).1
        = KDTree.mk pairTree (KDTree.build sel index (allCells pairCells)).1.node_count := by
      rw [← hroot]
    rw [hk, search_pair, hscan2]
    exact ⟨rfl, by simp, by simp [Cell.eq]⟩

/-- C2, amended. When all cells have the same half-size and every entry pairs a
cell with its center, then for every query point contained in at least one
listed cell both `KDTree::search` after `build` and `RegularSearch::search`
return a listed cell that contains the point, and they return the same cell
whenever only one listed cell contains the point. -/
theorem agreement_where_contained (sel : NthElement) (hsel : NthElementOk sel)
    (index : KDTree) (entries : List Entry) (h : ℚ) (p : Point)
    (hsize : ∀ e ∈ entries, e.2.half_size = h)
    (hcenter : ∀ e ∈ entries, e.1 = e.2.center)
    (hex : ∃ c ∈ entries.map Prod.snd, c.contains p = true) :
    (KDTree.build sel index entries).1.search p ∈ entries.map Prod.snd ∧
    ((KDTree.build sel index entries).1.search p).contains p = true ∧
    (RegularSearch.mk (entries.map Prod.snd)).search p ∈ entries.map Prod.snd ∧
    ((RegularSearch.mk (entries.map Prod.snd)).search p).contains p = true ∧
    ((∀ c ∈ entries.map Prod.snd, ∀ c' ∈ entries.map Prod.snd,
        c.contains p = true → c'.contains p = true → c = c') →
      (KDTree.build sel index entries).1.search p
        = (RegularSearch.mk (entries.map Prod.snd)).search p) := by
  obtain ⟨hk1, hk2⟩ := build_search_of_some sel hsel index entries h p hsize hcenter hex
  obtain ⟨hs1, hs2⟩ := scan_of_some (entries.map Prod.snd) p hex
  exact ⟨hk1, hk2, hs1, hs2, fun huniq => huniq _ hk1 _ hs1 hk2 hs2⟩

/-- The 3×3 scenario with the interior point `(1/2, 3/2)` of the first cell. -/
theorem agreement_where_contained_witness :
    (KDTree.build sortSelect KDTree.new (allCells grid3)).1.search ⟨1 / 2, 3 / 2⟩
      ∈ (allCells grid3).map Prod.snd ∧
    ((KDTree.build sortSelect KDTree.new (allCells grid3)).1.search ⟨1 / 2, 3 / 2⟩).contains
      ⟨1 / 2, 3 / 2⟩ = true ∧
    (RegularSearch.mk ((allCells grid3).map Prod.snd)).search ⟨1 / 2, 3 / 2⟩
      ∈ (allCells grid3).map Prod.snd ∧
    ((RegularSearch.mk ((allCells grid3).map Prod.snd)).search ⟨1 / 2, 3 / 2⟩).contains
      ⟨1 / 2, 3 / 2⟩ = true :=
  have h := agreement_where_contained sortSelect sortSelect_ok KDTree.new (allCells grid3) 1
    ⟨1 / 2, 3 / 2⟩ (by simp [allCells, grid3]) (by simp [allCells])
    ⟨⟨0, 0, ⟨1, 1⟩, 1⟩, by simp [allCells, grid3], by norm_num [Cell.contains, abs_le]⟩
  ⟨h.1, h.2.1, h.2.2.1, h.2.2.2.1⟩

/-- C3. Exhaustive scan contract: `RegularSearch::search` returns the first
cell of the list, in list order, that contains the point (every cell before it
does not), and when no cell of the list contains the point it returns the cell
`(-1, -1)`, center `(0, 0)`, half-size `0`; a result other than that sentinel
contains the point. -/
theorem exhaustive_scan_contract (cells : List Cell) (p : Point) :
    ((∃ pre c post, cells = pre ++ c :: post ∧ (∀ x ∈ pre, x.contains p = false) ∧
        c.contains p = true ∧ (RegularSearch.mk cells).search p = c) ∨
      ((∀ x ∈ cells, x.contains p = false) ∧
        (RegularSearch.mk cells).search p = ⟨-1, -1, ⟨0, 0⟩, 0⟩)) ∧
    ((RegularSearch.mk cells).search p ≠ ⟨-1, -1, ⟨0, 0⟩, 0⟩ →
      ((RegularSearch.mk cells).search p).contains p = true) := by
  have h := searchLoop_spec ⟨-1, -1, ⟨0, 0⟩, 0⟩ p cells
  refine ⟨h, ?_⟩
  intro hne
  rcases h with ⟨pre, c, post, _, _, h3, h4⟩ | ⟨_, h2⟩
  · have h5 : (RegularSearch.mk cells).search p = c := h4
    rw [h5]; exact h3
  · exact absurd h2 hne

/-- C4, the code at the failing input. `KDTree::search` on a never-built index
and on an index built from zero entries returns `Cell(0, 0, Point(0, 0), 0)`:
its grid address is `(0, 0)`, not `(-1, -1)`, the test `grid_x < 0` fails on it,
and it differs from the sentinel that the exhaustive scan returns (also in the
sense of `Cell::operator==`). -/
theorem empty_index_search (sel : NthElement) (index : KDTree) (p : Point) :
    KDTree.new.search p = ⟨0, 0, ⟨0, 0⟩, 0⟩ ∧
    (KDTree.build sel index []).1.search p = ⟨0, 0, ⟨0, 0⟩, 0⟩ ∧
    (RegularSearch.mk []).search p = ⟨-1, -1, ⟨0, 0⟩, 0⟩ ∧
    ¬ ((KDTree.new.search p).grid_x < 0) ∧
    ¬ (((KDTree.build sel index []).1.search p).grid_x < 0) ∧
    KDTree.new.search p ≠ (RegularSearch.mk []).search p ∧
    (KDTree.new.search p).eq ((RegularSearch.mk []).search p) = false := by
  have h1 : KDTree.new.search p = ⟨0, 0, ⟨0, 0⟩, 0⟩ := rfl
  have h2 : (KDTree.build sel index []).1.search p = ⟨0, 0, ⟨0, 0⟩, 0⟩ := by
    simp [KDTree.build, KDTree.search, buildTree_null, KDNode.isNull]
  have h3 : (RegularSearch.mk []).search p = ⟨-1, -1, ⟨0, 0⟩, 0⟩ := rfl
  rw [h1, h2, h3]
  refine ⟨rfl, rfl, rfl, by simp, by simp, by simp, by simp [Cell.eq]⟩

/-- C5, counterexample. In the 3×3 scenario the point `(0, 0)` is a corner of
the cell centered at `(1, 1)` and that cell contains it; the scan returns that
cell, not its sentinel, and so does the index built with the sorting selection
routine. -/
theorem scenario_origin_counterexample :
    (⟨0, 0, ⟨1, 1⟩, 1⟩ : Cell) ∈ grid3 ∧
    (⟨0, 0, ⟨1, 1⟩, 1⟩ : Cell).contains ⟨0, 0⟩ = true ∧
    (RegularSearch.mk grid3).search ⟨0, 0⟩ = ⟨0, 0, ⟨1, 1⟩, 1⟩ ∧
    (RegularSearch.mk grid3).search ⟨0, 0⟩ ≠ ⟨-1, -1, ⟨0, 0⟩, 0⟩ ∧
    (KDTree.build sortSelect KDTree.new (allCells grid3)).1.search ⟨0, 0⟩
      = ⟨0, 0, ⟨1, 1⟩, 1⟩ ∧
    (KDTree.build sortSelect KDTree.new (allCells grid3)).1.search ⟨0, 0⟩
      ≠ ⟨0, 0, ⟨0, 0⟩, 0⟩ ∧
    (KDTree.build sortSelect KDTree.new (allCells grid3)).1.search ⟨0, 0⟩
      ≠ ⟨-1, -1, ⟨0, 0⟩, 0⟩ := by
  have hk : (KDTree.build sortSelect KDTree.new (allCells grid3)).1.search ⟨0, 0⟩
      = ⟨0, 0, ⟨1, 1⟩, 1⟩ := by
    rw [build_grid3]
    exact search_grid3_00
  have hs : (RegularSearch.mk grid3).search ⟨0, 0⟩ = ⟨0, 0, ⟨1, 1⟩, 1⟩ := by
    norm_num [RegularSearch.search, RegularSearch.searchLoop, grid3, Cell.contains, abs_le]
  rw [hk, hs]
  refine ⟨by simp [grid3], by norm_num [Cell.contains, abs_le], rfl, by simp, rfl, by simp,
    by simp⟩

/-- C5, amended. In the 3×3 scenario the point `(0, 0)` is contained in the
cell centered at `(1, 1)` and in no other cell, and both
`RegularSearch::search` and `KDTree::search` after `build` return that cell,
for every selection routine that honours the postcondition of
`std::nth_element`. -/
theorem scenario_origin (sel : NthElement) (hsel : NthElementOk sel) (index : KDTree) :
    (∀ c ∈ grid3, c.contains ⟨0, 0⟩ = true ↔ c = ⟨0, 0, ⟨1, 1⟩, 1⟩) ∧
    (RegularSearch.mk grid3).search ⟨0, 0⟩ = ⟨0, 0, ⟨1, 1⟩, 1⟩ ∧
    (KDTree.build sel index (allCells grid3)).1.search ⟨0, 0⟩ = ⟨0, 0, ⟨1, 1⟩, 1⟩ := by
  have hiff : ∀ c ∈ grid3, c.contains ⟨0, 0⟩ = true ↔ c = ⟨0, 0, ⟨1, 1⟩, 1⟩ := by
    simp [grid3]
    norm_num [Cell.contains, abs_le]
  have hmap : (allCells grid3).map Prod.snd = grid3 := allCells_map_snd grid3
  have hex : ∃ c ∈ (allCells grid3).map Prod.snd, c.contains ⟨0, 0⟩ = true :=
    ⟨⟨0, 0, ⟨1, 1⟩, 1⟩, by simp [allCells, grid3], by norm_num [Cell.contains, abs_le]⟩
  obtain ⟨hk1, hk2⟩ := build_search_of_some sel hsel index (allCells grid3) 1 ⟨0, 0⟩
    (by simp [allCells, grid3]) (by simp [allCells]) hex
  rw [hmap] at hk1 hex
  obtain ⟨hs1, hs2⟩ := scan_of_some grid3 ⟨0, 0⟩ hex
  exact ⟨hiff, (hiff _ hs1).mp hs2, (hiff _ hk1).mp hk2⟩

/-- The amended scenario with the sorting selection routine. -/
theorem scenario_origin_witness :
    (RegularSearch.mk grid3).search ⟨0, 0⟩ = ⟨0, 0, ⟨1, 1⟩, 1⟩ ∧
    (KDTree.build sortSelect KDTree.new (allCells grid3)).1.search ⟨0, 0⟩
      = ⟨0, 0, ⟨1, 1⟩, 1⟩ :=
  (scenario_origin sortSelect sortSelect_ok KDTree.new).2

/-- C6. Build indexes exactly the input: after `KDTree::build` the tree has as
many nodes as there are entries, the entries stored in its nodes are a
rearrangement of the input (nothing lost, duplicated or altered),
`getNodeCount` returns the number of entries and the caller's vector is
unchanged; a second `build` on the resulting index has the same properties with
respect to its own input, whatever the first input was. -/
theorem build_indexes_input (sel : NthElement) (hsel : NthElementOk sel) (index : KDTree)
    (first second : List Entry) :
    ((KDTree.build sel index first).1.root.size = first.length ∧
      (KDTree.build sel index first).1.root.entries.Perm first ∧
      (KDTree.build sel index first).1.getNodeCount = first.length ∧
      (KDTree.build sel index first).2 = first) ∧
    ((KDTree.build sel (KDTree.build sel index first).1 second).1.root.size = second.length ∧
      (KDTree.build sel (KDTree.build sel index first).1 second).1.root.entries.Perm second ∧
      (KDTree.build sel (KDTree.build sel index first).1 second).1.getNodeCount
        = second.length ∧
      (KDTree.build sel (KDTree.build sel index first).1 second).2 = second) := by
  have key : ∀ (i : KDTree) (pts : List Entry),
      (KDTree.build sel i pts).1.root.size = pts.length ∧
      (KDTree.build sel i pts).1.root.entries.Perm pts ∧
      (KDTree.build sel i pts).1.getNodeCount = pts.length ∧
      (KDTree.build sel i pts).2 = pts := by
    intro i pts
    have hp := (build_root_spec sel hsel i pts).1
    exact ⟨by rw [size_eq_length_entries, hp.length_eq], hp, rfl, rfl⟩
  exact ⟨key index first, key _ second⟩

/-- The 3×3 scenario built first, then a rebuild from a single entry. -/
theorem build_indexes_input_witness :
    ((KDTree.build sortSelect KDTree.new (allCells grid3)).1.root.size = 9 ∧
      (KDTree.build sortSelect KDTree.new (allCells grid3)).1.getNodeCount = 9) ∧
    ((KDTree.build sortSelect (KDTree.build sortSelect KDTree.new (allCells grid3)).1
        [(⟨7, 7⟩, ⟨3, 3, ⟨7, 7⟩, 1⟩)]).1.root.size = 1 ∧
      (KDTree.build sortSelect (KDTree.build sortSelect KDTree.new (allCells grid3)).1
        [(⟨7, 7⟩, ⟨3, 3, ⟨7, 7⟩, 1⟩)]).1.root.entries.Perm [(⟨7, 7⟩, ⟨3, 3, ⟨7, 7⟩, 1⟩)]) :=
  have h := build_indexes_input sortSelect sortSelect_ok KDTree.new (allCells grid3)
    [(⟨7, 7⟩, ⟨3, 3, ⟨7, 7⟩, 1⟩)]
  ⟨⟨h.1.1, h.1.2.2.1⟩, ⟨h.2.1, h.2.2.1⟩⟩

/-- C7. Build yields a balanced tree: at every node of the built tree whose
subtree has `n` nodes the left subtree has `n / 2` nodes and the right subtree
`n - 1 - n / 2` (so they differ by at most one and the left is never the
smaller); the tree has `N` nodes and its height is `0` for `N = 0` and
`⌊log₂ N⌋ + 1` otherwise; `buildTree` is a total function that yields a subtree
of `end - start` nodes on every range, both recursive ranges being strictly
shorter than the range of the call. -/
theorem build_balanced (sel : NthElement) (index : KDTree) (points : List Entry) :
    MedianSplit (KDTree.build sel index points).1.root ∧
    LeftHeavy (KDTree.build sel index points).1.root ∧
    (KDTree.build sel index points).1.root.size = points.length ∧
    (KDTree.build sel index points).1.root.height
      = (if points.length = 0 then 0 else Nat.log 2 points.length + 1) ∧
    (∀ (v : List Entry) (depth start end_ : Nat),
      (buildTree sel v depth start end_).1.size = end_ - start ∧
      MedianSplit (buildTree sel v depth start end_).1) ∧
    (∀ (start end_ : Nat), start < end_ →
      (start + (end_ - start) / 2) - start < end_ - start ∧
      end_ - (start + (end_ - start) / 2 + 1) < end_ - start) := by
  obtain ⟨h1, h2⟩ := buildTree_shape sel points.length points 0 0 points.length rfl
  rw [build_root]
  refine ⟨h2, leftHeavy_of_medianSplit _ h2, h1, ?_, ?_, ?_⟩
  · rw [height_of_medianSplit _ h2, h1]; rfl
  · intro v depth start end_
    exact buildTree_shape sel (end_ - start) v depth start end_ rfl
  · intro start end_ h
    omega

/-- C8. Containment search is complete under uniform half-size: for every tree
that satisfies the k-d ordering invariant from depth `0`, in which every node's
point is the center of its cell and all cells have the same half-size `h`, and
for every query point, if some stored cell contains the point then
`KDTree::search` returns a stored cell that contains the point. -/
theorem containment_search_complete (index : KDTree) (p : Point) (h : ℚ)
    (hinv : KDInv index.root 0)
    (hcenter : ∀ e ∈ index.root.entries, e.1 = e.2.center)
    (hsize : ∀ e ∈ index.root.entries, e.2.half_size = h)
    (hex : ∃ c ∈ index.root.cells, c.contains p = true) :
    index.search p ∈ index.root.cells ∧ (index.search p).contains p = true :=
  search_of_some index p h hinv hcenter hsize hex

/-- A tree with ties on the splitting axis: the query `(3, 1)` is not less
than the root's `x = 3`, so the right child is searched first and the containing
cell sits in the far (left) subtree. -/
theorem containment_search_complete_witness :
    (KDTree.mk tieTree 3).search ⟨3, 1⟩ ∈ tieTree.cells ∧
    ((KDTree.mk tieTree 3).search ⟨3, 1⟩).contains ⟨3, 1⟩ = true :=
  containment_search_complete (KDTree.mk tieTree 3) ⟨3, 1⟩ 1
    (by simp [KDInv, tieTree, KDNode.entries, coord])
    (by simp [tieTree, KDNode.entries])
    (by simp [tieTree, KDNode.entries])
    ⟨⟨1, 0, ⟨3, 1⟩, 1⟩, by simp [tieTree, KDNode.cells, KDNode.entries],
      by norm_num [Cell.contains]⟩

/-- C9. Build establishes the k-d ordering invariant on whole subtrees: for
every input and every selection routine that honours the postcondition of
`std::nth_element`, the built tree satisfies the invariant from depth `0`; and
for every range of the working vector and every depth, `buildTree` rearranges
only the entries of its own range, stores exactly the final content of the
range (in in-order) and returns a subtree that satisfies the invariant from
that depth. -/
theorem build_establishes_kd_ordering (sel : NthElement) (hsel : NthElementOk sel)
    (index : KDTree) (points : List Entry) :
    KDInv (KDTree.build sel index points).1.root 0 ∧
    ∀ (pre s suf : List Entry) (depth : Nat),
      ∃ t s', buildTree sel (pre ++ s ++ suf) depth pre.length (pre.length + s.length)
          = (t, pre ++ s' ++ suf) ∧
        s'.Perm s ∧ t.entries = s' ∧ KDInv t depth :=
  ⟨(build_root_spec sel hsel index points).2,
    fun pre s suf depth => buildTree_spec sel hsel s.length pre s suf depth rfl⟩

/-- The 3×3 scenario built with the sorting selection routine. -/
theorem build_establishes_kd_ordering_witness :
    KDInv (KDTree.build sortSelect KDTree.new (allCells grid3)).1.root 0 :=
  (build_establishes_kd_ordering sortSelect sortSelect_ok KDTree.new (allCells grid3)).1

/-- C10, counterexample. A one-node tree whose only cell is
`Cell(0, 0, Point(0, 0), 0)` is not empty, its cell does not contain `(5, 5)`,
and `KDTree::search((5, 5))` returns that cell, which is the value that `search`
returns on an empty index. -/
theorem default_result_counterexample :
    (KDTree.mk (.node ⟨0, 0⟩ ⟨0, 0, ⟨0, 0⟩, 0⟩ .null .null) 1).root.isNull = false ∧
    (⟨0, 0, ⟨0, 0⟩, 0⟩ : Cell).contains ⟨5, 5⟩ = false ∧
    (KDTree.mk (.node ⟨0, 0⟩ ⟨0, 0, ⟨0, 0⟩, 0⟩ .null .null) 1).search ⟨5, 5⟩
      = ⟨0, 0, ⟨0, 0⟩, 0⟩ ∧
    (KDTree.mk (.node ⟨0, 0⟩ ⟨0, 0, ⟨0, 0⟩, 0⟩ .null .null) 1).search ⟨5, 5⟩
      = KDTree.new.search ⟨5, 5⟩ ∧
    (KDTree.build sortSelect KDTree.new [(⟨0, 0⟩, ⟨0, 0, ⟨0, 0⟩, 0⟩)]).1
      = KDTree.mk (.node ⟨0, 0⟩ ⟨0, 0, ⟨0, 0⟩, 0⟩ .null .null) 1 := by
  refine ⟨rfl, by norm_num [Cell.contains], ?_, ?_, ?_⟩
  · norm_num [KDTree.search, searchHelper, KDNode.isNull]
  · norm_num [KDTree.search, searchHelper, KDNode.isNull, KDTree.new]
  · simp [KDTree.build, buildTree_node, buildTree_null, sortSelect, slice]

/-- C10, amended. For every non-empty tree and every query point,
`KDTree::search` returns the cell of some node of the tree; the result differs
from the value returned on an empty index and from the scan's sentinel whenever
every stored cell has a positive half-size; and when no stored cell contains the
point the result is the root's cell, which does not contain the point, whereas
`RegularSearch::search` over the stored cells returns its sentinel. -/
theorem unvalidated_default_result (index : KDTree) (p : Point)
    (hne : index.root.isNull = false) :
    index.search p ∈ index.root.cells ∧
    ((∀ c ∈ index.root.cells, 0 < c.half_size) →
      index.search p ≠ ⟨0, 0, ⟨0, 0⟩, 0⟩ ∧ index.search p ≠ ⟨-1, -1, ⟨0, 0⟩, 0⟩) ∧
    ((∀ c ∈ index.root.cells, c.contains p = false) →
      (index.search p).contains p = false ∧
      (∀ point cell left right, index.root = KDNode.node point cell left right →
        index.search p = cell) ∧
      (RegularSearch.mk index.root.cells).search p = ⟨-1, -1, ⟨0, 0⟩, 0⟩) := by
  have hmem : index.search p ∈ index.root.cells := by
    rw [search_eq_searchHelper index p hne]
    exact searchHelper_mem p _ 0 hne
  refine ⟨hmem, ?_, ?_⟩
  · intro hpos
    have h := hpos _ hmem
    constructor
    · intro e; rw [e] at h; exact lt_irrefl _ h
    · intro e; rw [e] at h; exact lt_irrefl _ h
  · intro hnone
    refine ⟨hnone _ hmem, ?_, scan_of_none _ p hnone⟩
    intro point cell left right hroot
    obtain ⟨root, n⟩ := index
    simp only at hroot
    subst hroot
    exact search_of_none point cell left right n p hnone

/-- The tree of the 3×3 scenario queried at the outside point `(-1, -1)`. -/
theorem unvalidated_default_result_witness :
    (KDTree.mk grid3Tree 9).search ⟨-1, -1⟩ ∈ grid3Tree.cells ∧
    ((∀ c ∈ grid3Tree.cells, c.contains ⟨-1, -1⟩ = false) →
      ((KDTree.mk grid3Tree 9).search ⟨-1, -1⟩).contains ⟨-1, -1⟩ = false ∧
      (RegularSearch.mk grid3Tree.cells).search ⟨-1, -1⟩ = ⟨-1, -1, ⟨0, 0⟩, 0⟩) :=
  have h := unvalidated_default_result (KDTree.mk grid3Tree 9) ⟨-1, -1⟩ rfl
  ⟨h.1, fun hn => ⟨(h.2.2 hn).1, (h.2.2 hn).2.2⟩⟩

/-- Every selection routine that honours the postcondition builds the same
tree from `mixedCells`. -/
theorem build_mixed (sel : NthElement) (hsel : NthElementOk sel) (index : KDTree) :
    (KDTree.build sel index (allCells mixedCells)).1.root = mixedTree := by
  obtain ⟨hperm, hinv⟩ := build_root_spec sel hsel index (allCells mixedCells)
  obtain ⟨hsize, hshape⟩ := buildTree_shape sel 2 (allCells mixedCells) 0 0 2 rfl
  have hroot : (KDTree.build sel index (allCells mixedCells)).1.root
      = (buildTree sel (allCells mixedCells) 0 0 2).1 := rfl
  rw [hroot] at hperm hinv ⊢
  generalize (buildTree sel (allCells mixedCells) 0 0 2).1 = t at hperm hinv hsize hshape
  cases t with
  | null => simp [KDNode.size] at hsize
  | node pt cell l r =>
    obtain ⟨hl, hr, -, -⟩ := hshape
    rw [hsize] at hl hr
    have hrn := eq_null_of_size_zero r (by omega)
    subst hrn
    cases l with
    | null => simp [KDNode.size] at hl
    | node pt2 cell2 l2 r2 =>
      simp only [KDNode.size] at hl
      have h1 := eq_null_of_size_zero l2 (by omega)
      have h2 := eq_null_of_size_zero r2 (by omega)
      subst h1 h2
      have hle := hinv.1 (pt2, cell2) (by simp [KDNode.entries])
      simp only [KDNode.entries, List.nil_append, List.singleton_append, allCells, mixedCells,
        List.map_cons, List.map_nil] at hperm
      have m1 := hperm.subset (List.mem_cons_self _ _)
      have m2 := hperm.subset (List.mem_cons_of_mem _ (List.mem_cons_self _ _))
      have m3 := hperm.symm.subset (List.mem_cons_self _ _)
      have m4 := hperm.symm.subset (List.mem_cons_of_mem _ (List.mem_cons_self _ _))
      simp only [List.mem_cons, List.mem_singleton, List.not_mem_nil, or_false,
        Prod.mk.injEq] at m1 m2 m3 m4
      simp only [coord, Nat.zero_mod, if_true] at hle
      rcases m1 with ⟨rfl, rfl⟩ | ⟨rfl, rfl⟩ <;> rcases m2 with ⟨rfl, rfl⟩ | ⟨rfl, rfl⟩
      · norm_num at m4
      · norm_num at hle
      · rfl
      · norm_num at m3

theorem search_mixed (n : Nat) :
    (KDTree.mk mixedTree n).search ⟨1, 0⟩ = ⟨0, 0, ⟨0, 0⟩, 1 / 10⟩ := by
  norm_num [KDTree.search, searchHelper, mixedTree, Cell.contains, KDNode.isNull, abs_le]

theorem build_mixed_sort (index : KDTree) :
    (KDTree.build sortSelect index (allCells mixedCells)).1 = ⟨mixedTree, 2⟩ := by
  simp [KDTree.build, allCells, mixedCells, mixedTree, buildTree_node, buildTree_null,
    sortSelect, slice, lessAxis]

/-- C11. The pruning bound is unsound for heterogeneous cell sizes: there are
entries, each pairing a cell with its center, whose cells have different
half-sizes, and a query point contained in a stored cell, such that
`KDTree::search` after `build` returns a cell that does not contain the point
(for every selection routine that honours the postcondition of
`std::nth_element`), while `RegularSearch::search` returns a cell that contains
it.  The instance: cells centered at `(0, 0)` with half-size `1/10` and at
`(-5, 0)` with half-size `10`, queried at `(1, 0)`; the index returns the small
cell, whose half-size `1/10` prunes the far subtree at distance `1`, and the scan
returns the large cell. -/
theorem pruning_unsound_heterogeneous :
    (∃ (entries : List Entry) (p : Point),
      (∀ e ∈ entries, e.1 = e.2.center) ∧
      (∃ a ∈ entries, ∃ b ∈ entries, a.2.half_size ≠ b.2.half_size) ∧
      (∃ c ∈ entries.map Prod.snd, c.contains p = true) ∧
      (∀ (sel : NthElement), NthElementOk sel → ∀ (index : KDTree),
        ((KDTree.build sel index entries).1.search p).contains p = false) ∧
      ((RegularSearch.mk (entries.map Prod.snd)).search p).contains p = true) ∧
    (KDTree.build sortSelect KDTree.new (allCells mixedCells)).1.search ⟨1, 0⟩
      = ⟨0, 0, ⟨0, 0⟩, 1 / 10⟩ ∧
    (⟨0, 0, ⟨0, 0⟩, 1 / 10⟩ : Cell).contains ⟨1, 0⟩ = false ∧
    (RegularSearch.mk mixedCells).search ⟨1, 0⟩ = ⟨1, 0, ⟨-5, 0⟩, 10⟩ ∧
    (⟨1, 0, ⟨-5, 0⟩, 10⟩ : Cell).contains ⟨1, 0⟩ = true := by
  have hsmall : (⟨0, 0, ⟨0, 0⟩, 1 / 10⟩ : Cell).contains ⟨1, 0⟩ = false := by
    norm_num [Cell.contains, abs_le]
  have hlarge : (⟨1, 0, ⟨-5, 0⟩, 10⟩ : Cell).contains ⟨1, 0⟩ = true := by
    norm_num [Cell.contains, abs_le]
  have hscan : (RegularSearch.mk mixedCells).search ⟨1, 0⟩ = ⟨1, 0, ⟨-5, 0⟩, 10⟩ := by
    norm_num [RegularSearch.search, RegularSearch.searchLoop, mixedCells, Cell.contains,
      abs_le]
  have hsort : (KDTree.build sortSelect KDTree.new (allCells mixedCells)).1.search ⟨1, 0⟩
      = ⟨0, 0, ⟨0, 0⟩, 1 / 10⟩ := by
    rw [build_mixed_sort]
    exact search_mixed 2
  refine ⟨⟨allCells mixedCells, ⟨1, 0⟩, ?_, ?_, ?_, ?_, ?_⟩, hsort, hsmall, hscan, hlarge⟩
  · simp [allCells]
  · refine ⟨(⟨0, 0⟩, ⟨0, 0, ⟨0, 0⟩, 1 / 10⟩), by simp [allCells, mixedCells],
      (⟨-5, 0⟩, ⟨1, 0, ⟨-5, 0⟩, 10⟩), by simp [allCells, mixedCells], ?_⟩
    norm_num
  · rw [allCells_map_snd]
    exact ⟨⟨1, 0, ⟨-5, 0⟩, 10⟩, by simp [mixedCells], hlarge⟩
  · intro sel hsel index
    have hroot := build_mixed sel hsel index
    have hk : (KDTree.build sel index (allCells mixedCells)).1
        = KDTree.mk mixedTree (KDTree.build sel index (allCells mixedCells)).1.node_count := by
      rw [← hroot]
    rw [hk, search_mixed]
    exact hsmall
  · rw [allCells_map_snd, hscan]
    exact hlarge

end KDBench
